import Mathlib

/-!
Verification of the TaskMaster task store against its specification.

The repository has two variants of the same store: a batch front end
(src/taskmaster.py) and an interactive front end (src/taskmaster_gui.py).
Both define an identical Task entity and a TaskManager holding an ordered
list of tasks persisted as a whole-file JSON document.  We embed the store
shallowly: the ambient clock (datetime.now().isoformat()) becomes an
explicit String argument, the JSON layer becomes an inductive JSON value
type, and Python exceptions become an error type threaded through Except.
-/

namespace TaskMaster

/-- Priority enumeration, from class Priority in both source files:
LOW = "low", MEDIUM = "medium", HIGH = "high". -/
inductive Priority where
  | low
  | medium
  | high
deriving DecidableEq, Repr

/-- The .value attribute of the Python enum member: its lowercase tag. -/
def Priority.value : Priority → String
  | .low => "low"
  | .medium => "medium"
  | .high => "high"

/-- JSON values as produced by json.load: null, booleans, integers
(the files at hand never hold fractional numbers), strings, arrays and
objects.  Objects are association lists in textual order. -/
inductive JVal where
  | jnull
  | jbool (b : Bool)
  | jint (n : Int)
  | jstr (s : String)
  | jarr (l : List JVal)
  | jobj (l : List (String × JVal))

/-- Python exceptions that the load path can raise: KeyError from a
missing dict key, ValueError from the Priority constructor on an unknown
tag, TypeError from subscripting or iterating a non-container value.
json.JSONDecodeError never escapes load_tasks, so it is not listed. -/
inductive PyErr where
  | keyError (k : String)
  | valueError
  | typeError
deriving DecidableEq, Repr

/-- Python dict subscripting data[k]: KeyError when the key is absent.
json.load keeps the last of duplicate keys, hence the lookup prefers the
later binding. -/
def dictGet : List (String × JVal) → String → Except PyErr JVal
  | [], k => .error (.keyError k)
  | (k0, v) :: rest, k =>
    match dictGet rest k with
    | .ok v1 => .ok v1
    | .error _ => if k0 = k then .ok v else .error (.keyError k)

/-- The Priority(value) enum constructor: returns the member whose value
matches, raises ValueError otherwise (also on non-string arguments). -/
def Priority.ofValue : JVal → Except PyErr Priority
  | .jstr "low" => .ok .low
  | .jstr "medium" => .ok .medium
  | .jstr "high" => .ok .high
  | _ => .error .valueError

/-- A task as held in memory once constructed through the store
operations (class Task in both files): Task.__init__ sets completed to
False, created_at to the current time and completed_at to None. -/
structure Task where
  id : Int
  title : String
  priority : Priority
  completed : Bool
  created_at : String
  completed_at : Option String
deriving DecidableEq, Repr

/-- Task.__init__(id, title, priority) with the construction time passed
explicitly: completed=False, created_at=now, completed_at=None. -/
def Task.init (id : Int) (title : String) (priority : Priority) (now : String) : Task :=
  { id := id, title := title, priority := priority,
    completed := false, created_at := now, completed_at := none }

/-- JSON image of an optional string: None becomes null. -/
def jsonOfOptStr : Option String → JVal
  | none => .jnull
  | some s => .jstr s

/-- Task.to_dict, identical in both files: the six fields in source
order, priority serialized as its lowercase tag. -/
def Task.to_dict (t : Task) : JVal :=
  .jobj [("id", .jint t.id),
         ("title", .jstr t.title),
         ("priority", .jstr t.priority.value),
         ("completed", .jbool t.completed),
         ("created_at", .jstr t.created_at),
         ("completed_at", jsonOfOptStr t.completed_at)]

/-- A task record as Task.from_dict rebuilds it.  The Python code stores
the raw dict values without any type check (only priority goes through
the enum constructor), so every field except priority keeps its JSON
value. -/
structure RawTask where
  id : JVal
  title : JVal
  priority : Priority
  completed : JVal
  created_at : JVal
  completed_at : JVal

/-- JSON image of an in-memory task, field by field: what from_dict
yields when fed to_dict output. -/
def Task.toRaw (t : Task) : RawTask :=
  { id := .jint t.id, title := .jstr t.title, priority := t.priority,
    completed := .jbool t.completed, created_at := .jstr t.created_at,
    completed_at := jsonOfOptStr t.completed_at }

/-- Task.from_dict(data), identical in both files.  Lookups and the
enum conversion happen in source evaluation order: data["id"],
data["title"], Priority(data["priority"]), then the three assignments.
Subscripting a non-dict raises TypeError.  No exception is caught here. -/
def Task.from_dict (data : JVal) : Except PyErr RawTask :=
  match data with
  | .jobj fields => do
    let idv ← dictGet fields "id"
    let titlev ← dictGet fields "title"
    let priov ← dictGet fields "priority"
    let prio ← Priority.ofValue priov
    let completedv ← dictGet fields "completed"
    let createdv ← dictGet fields "created_at"
    let completedAtv ← dictGet fields "completed_at"
    return { id := idv, title := titlev, priority := prio,
             completed := completedv, created_at := createdv,
             completed_at := completedAtv }
  | _ => .error .typeError

/-- Result of the existence check plus json.load on the backing file:
the file is absent, or present but not valid JSON (json.load raises
JSONDecodeError), or present and parsed to a JSON value. -/
inductive DiskFile where
  | absent
  | malformed
  | parsed (v : JVal)

/-- The comprehension [Task.from_dict(data) for data in tasks_data]:
iterating an array visits its elements; iterating a dict visits its keys
(strings); iterating a string visits its one-character substrings; null,
booleans and integers are not iterable and raise TypeError.  The first
exception from from_dict aborts the comprehension. -/
def tasksFromData : JVal → Except PyErr (List RawTask)
  | .jarr l => l.mapM Task.from_dict
  | .jobj fields => fields.mapM (fun kv => Task.from_dict (.jstr kv.1))
  | .jstr s => s.toList.mapM (fun c => Task.from_dict (.jstr (String.mk [c])))
  | _ => .error .typeError

namespace cli

/-- TaskManager.add_task from src/taskmaster.py: new id is
len(self.tasks) + 1, the task is appended, the collection saved, the
task returned. -/
def add_task (tasks : List Task) (title : String) (priority : Priority) (now : String) :
    Task × List Task :=
  let task := Task.init ((tasks.length : Int) + 1) title priority now
  (task, tasks ++ [task])

/-- TaskManager.complete_task from src/taskmaster.py: scan for the first
task with matching id that is not yet completed; mark it, stamp
completed_at, save and return True; otherwise return False. -/
def complete_task (tasks : List Task) (task_id : Int) (now : String) : Bool × List Task :=
  match tasks with
  | [] => (false, [])
  | t :: rest =>
    if t.id = task_id ∧ t.completed = false then
      (true, { t with completed := true, completed_at := some now } :: rest)
    else
      let r := complete_task rest task_id now
      (r.1, t :: r.2)

/-- TaskManager.delete_task from src/taskmaster.py: remove the first
task with matching id, save and return True; otherwise return False. -/
def delete_task (tasks : List Task) (task_id : Int) : Bool × List Task :=
  match tasks with
  | [] => (false, [])
  | t :: rest =>
    if t.id = task_id then
      (true, rest)
    else
      let r := delete_task rest task_id
      (r.1, t :: r.2)

/-- TaskManager.list_tasks from src/taskmaster.py. -/
def list_tasks (tasks : List Task) (show_completed : Bool) : List Task :=
  if show_completed then tasks
  else tasks.filter (fun t => !t.completed)

/-- TaskManager.save_tasks from src/taskmaster.py: the JSON document it
writes, an array of to_dict records in collection order. -/
def save_tasks (tasks : List Task) : JVal :=
  .jarr (tasks.map Task.to_dict)

/-- TaskManager.load_tasks from src/taskmaster.py: absent file yields an
empty collection; json.JSONDecodeError is caught and yields an empty
collection; any exception from the from_dict comprehension (KeyError,
ValueError, TypeError) is NOT caught and propagates. -/
def load_tasks (d : DiskFile) : Except PyErr (List RawTask) :=
  match d with
  | .absent => .ok []
  | .malformed => .ok []
  | .parsed v => tasksFromData v

end cli

namespace gui

/-- TaskManager.add_task from src/taskmaster_gui.py: same body as the
batch variant. -/
def add_task (tasks : List Task) (title : String) (priority : Priority) (now : String) :
    Task × List Task :=
  let task := Task.init ((tasks.length : Int) + 1) title priority now
  (task, tasks ++ [task])

/-- TaskManager.toggle_task from src/taskmaster_gui.py: flip completed on
the first task with matching id; completed_at becomes now when turning
complete and None when turning incomplete; save and return True;
otherwise return False. -/
def toggle_task (tasks : List Task) (task_id : Int) (now : String) : Bool × List Task :=
  match tasks with
  | [] => (false, [])
  | t :: rest =>
    if t.id = task_id then
      let c := !t.completed
      let at2 : Option String := if c then some now else none
      (true, { t with completed := c, completed_at := at2 } :: rest)
    else
      let r := toggle_task rest task_id now
      (r.1, t :: r.2)

/-- TaskManager.delete_task from src/taskmaster_gui.py: same body as the
batch variant. -/
def delete_task (tasks : List Task) (task_id : Int) : Bool × List Task :=
  match tasks with
  | [] => (false, [])
  | t :: rest =>
    if t.id = task_id then
      (true, rest)
    else
      let r := delete_task rest task_id
      (r.1, t :: r.2)

/-- TaskManager.save_tasks from src/taskmaster_gui.py: same document as
the batch variant, written to self.filename instead of the module
constant. -/
def save_tasks (tasks : List Task) : JVal :=
  .jarr (tasks.map Task.to_dict)

/-- TaskManager.load_tasks from src/taskmaster_gui.py: identical to the
batch variant except that FileNotFoundError is also caught, a case the
embedding cannot reach since the existence check already decided the
file is present. -/
def load_tasks (d : DiskFile) : Except PyErr (List RawTask) :=
  match d with
  | .absent => .ok []
  | .malformed => .ok []
  | .parsed v => tasksFromData v

end gui

/-- State of one TaskManager: the in-memory collection plus the parsed
content of the last write to the backing file (none when nothing was
written in this run). -/
structure Store where
  tasks : List Task
  file : Option (List Task)
deriving DecidableEq, Repr

/-- A fresh TaskManager over a path with no existing file: load_tasks
leaves the collection empty and nothing has been written. -/
def Store.empty : Store := ⟨[], none⟩

/-- Add at store level: add_task always saves the updated collection. -/
def Store.add (s : Store) (title : String) (priority : Priority) (now : String) :
    Task × Store :=
  let r := cli.add_task s.tasks title priority now
  (r.1, ⟨r.2, some r.2⟩)

/-- Complete at store level: save_tasks runs exactly on the True path. -/
def Store.complete (s : Store) (task_id : Int) (now : String) : Bool × Store :=
  let r := cli.complete_task s.tasks task_id now
  (r.1, ⟨r.2, if r.1 then some r.2 else s.file⟩)

/-- Toggle at store level: save_tasks runs exactly on the True path. -/
def Store.toggle (s : Store) (task_id : Int) (now : String) : Bool × Store :=
  let r := gui.toggle_task s.tasks task_id now
  (r.1, ⟨r.2, if r.1 then some r.2 else s.file⟩)

/-- Delete at store level: save_tasks runs exactly on the True path. -/
def Store.delete (s : Store) (task_id : Int) : Bool × Store :=
  let r := cli.delete_task s.tasks task_id
  (r.1, ⟨r.2, if r.1 then some r.2 else s.file⟩)

/-- One store operation, with every clock reading made explicit. -/
inductive Op where
  | add (title : String) (priority : Priority) (now : String)
  | complete (task_id : Int) (now : String)
  | toggle (task_id : Int) (now : String)
  | delete (task_id : Int)

/-- Effect of one operation on the store state. -/
def Store.applyOp (s : Store) : Op → Store
  | .add title p now => (s.add title p now).2
  | .complete i now => (s.complete i now).2
  | .toggle i now => (s.toggle i now).2
  | .delete i => (s.delete i).2

/-- Store state after a sequence of operations from the empty store. -/
def runOps (ops : List Op) : Store :=
  ops.foldl Store.applyOp Store.empty

/-- Returned tasks of a sequence of Add calls, in call order. -/
def addSeqTasks (args : List (String × Priority × String)) (s : Store) : List Task :=
  match args with
  | [] => []
  | (title, p, now) :: rest =>
    let r := s.add title p now
    r.1 :: addSeqTasks rest r.2

/-- Data-model invariant of §3: completed_at is non-null exactly when
completed is true. -/
def taskConsistent (t : Task) : Prop :=
  t.completed_at.isSome = t.completed

/-- Store-level invariant: every in-memory task and every task of the
last persisted snapshot is consistent. -/
def storeConsistent (s : Store) : Prop :=
  (∀ t ∈ s.tasks, taskConsistent t) ∧
  (∀ f, s.file = some f → ∀ t ∈ f, taskConsistent t)

/-! Helper lemmas shared by the claim theorems. -/

/-- Decoding the encoding of an in-memory task recovers its JSON image
field by field. -/
theorem from_dict_to_dict (t : Task) : Task.from_dict t.to_dict = .ok t.toRaw := by
  obtain ⟨i, ti, p, c, ca, cat⟩ := t
  cases p <;> rfl

/-- Decoding an encoded collection recovers the JSON image of every
task, in order. -/
theorem tasksFromData_save (ts : List Task) :
    tasksFromData (.jarr (ts.map Task.to_dict)) = .ok (ts.map Task.toRaw) := by
  induction ts with
  | nil => rfl
  | cons t rest ih =>
    simp only [tasksFromData, List.map_cons] at ih ⊢
    rw [List.mapM_cons, from_dict_to_dict, ih]
    rfl

/-- Ids returned by a run of Add calls count up from the current size
plus one. -/
theorem addSeqTasks_ids (args : List (String × Priority × String)) (s : Store) :
    (addSeqTasks args s).map Task.id
      = (List.range args.length).map
          (fun k : Nat => (s.tasks.length : Int) + 1 + (k : Int)) := by
  induction args generalizing s with
  | nil => rfl
  | cons a rest ih =>
    obtain ⟨title, p, now⟩ := a
    have hlen : ((s.add title p now).2).tasks.length = s.tasks.length + 1 := by
      simp [Store.add, cli.add_task]
    simp only [addSeqTasks, List.map_cons, List.length_cons,
      List.range_succ_eq_map, List.map_map]
    refine List.cons_eq_cons.mpr ⟨by simp [Store.add, cli.add_task, Task.init], ?_⟩
    rw [ih, hlen]
    apply List.map_congr_left
    intro k _
    simp only [Function.comp_apply, Nat.succ_eq_add_one]
    push_cast
    ring

/-- Complete scans past every task when no incomplete task carries the
requested id, leaving the collection untouched and reporting False. -/
theorem complete_task_no_incomplete_match (tasks : List Task) (i : Int) (now : String)
    (h : ∀ t ∈ tasks, t.id = i → t.completed = true) :
    cli.complete_task tasks i now = (false, tasks) := by
  induction tasks with
  | nil => rfl
  | cons t rest ih =>
    have ht : t.id = i → t.completed = true := h t (List.mem_cons_self t rest)
    have hrest : ∀ u ∈ rest, u.id = i → u.completed = true :=
      fun u hu => h u (List.mem_cons_of_mem t hu)
    simp only [cli.complete_task]
    rw [if_neg, ih hrest]
    rintro ⟨hid, hc⟩
    rw [ht hid] at hc
    exact absurd hc (by simp)

/-- Delete scans past every task when no task carries the requested id,
leaving the collection untouched and reporting False. -/
theorem delete_task_not_found (tasks : List Task) (i : Int)
    (h : ∀ t ∈ tasks, t.id ≠ i) :
    cli.delete_task tasks i = (false, tasks) := by
  induction tasks with
  | nil => rfl
  | cons t rest ih =>
    have hrest : ∀ u ∈ rest, u.id ≠ i := fun u hu => h u (List.mem_cons_of_mem t hu)
    simp only [cli.delete_task]
    rw [if_neg (h t (List.mem_cons_self t rest)), ih hrest]

/-- When delete reports True, the collection splits as a prefix with no
matching id, the first matching task, and the untouched remainder; the
result is the concatenation of prefix and remainder. -/
theorem delete_task_found_decomp (tasks : List Task) (i : Int)
    (h : (cli.delete_task tasks i).1 = true) :
    ∃ l t r, tasks = l ++ t :: r ∧ (∀ u ∈ l, u.id ≠ i) ∧ t.id = i ∧
      (cli.delete_task tasks i).2 = l ++ r := by
  induction tasks with
  | nil => exact absurd h (by simp [cli.delete_task])
  | cons t rest ih =>
    by_cases hid : t.id = i
    · refine ⟨[], t, rest, by simp, by simp, hid, ?_⟩
      simp [cli.delete_task, if_pos hid]
    · have h2 : (cli.delete_task rest i).1 = true := by
        simpa [cli.delete_task, if_neg hid] using h
      obtain ⟨l, u, r, heq, hl, hu, hres⟩ := ih h2
      refine ⟨t :: l, u, r, by simp [heq], ?_, hu, ?_⟩
      · intro v hv
        rcases List.mem_cons.mp hv with hv | hv
        · exact hv ▸ hid
        · exact hl v hv
      · simp [cli.delete_task, if_neg hid, hres]

/-- Toggling twice at a position whose first matching task starts
incomplete with a null completion stamp restores the collection exactly,
both calls reporting True. -/
theorem toggle_task_twice (tasks : List Task) (i : Int) (now1 now2 : String)
    (t : Task) (hfind : tasks.find? (fun u => u.id == i) = some t)
    (hc : t.completed = false) (ha : t.completed_at = none) :
    (gui.toggle_task tasks i now1).1 = true ∧
      gui.toggle_task (gui.toggle_task tasks i now1).2 i now2 = (true, tasks) := by
  induction tasks with
  | nil => simp at hfind
  | cons u rest ih =>
    by_cases hid : u.id = i
    · have hu : u = t := by
        have hb : (u.id == i) = true := beq_iff_eq.mpr hid
        have := List.find?_cons_of_pos (p := fun v => v.id == i) rest hb
        rw [this] at hfind
        exact Option.some_injective _ hfind
      subst hu
      obtain ⟨i0, ti0, p0, c0, ca0, cat0⟩ := u
      simp only at hc ha
      subst hc
      subst ha
      simp only at hid
      subst hid
      constructor
      · simp [gui.toggle_task]
      · simp [gui.toggle_task]
    · have hb : ¬((u.id == i) = true) := by simpa using hid
      have hfind2 : rest.find? (fun v => v.id == i) = some t := by
        have := List.find?_cons_of_neg (p := fun v => v.id == i) rest hb
        rw [this] at hfind
        exact hfind
      obtain ⟨ih1, ih2⟩ := ih hfind2
      constructor
      · simpa [gui.toggle_task, if_neg hid] using ih1
      · simp only [gui.toggle_task, if_neg hid]
        rw [ih2]

/-- Add preserves per-task consistency: the fresh task starts incomplete
with a null stamp. -/
theorem consistent_add_task (tasks : List Task) (title : String) (p : Priority) (now : String)
    (h : ∀ t ∈ tasks, taskConsistent t) :
    ∀ t ∈ (cli.add_task tasks title p now).2, taskConsistent t := by
  intro t ht
  rcases List.mem_append.mp ht with ht | ht
  · exact h t ht
  · have : t = Task.init ((tasks.length : Int) + 1) title p now := by simpa using ht
    subst this
    rfl

/-- Complete preserves per-task consistency: it stamps completed_at in
the same step that sets completed. -/
theorem consistent_complete_task (tasks : List Task) (i : Int) (now : String)
    (h : ∀ t ∈ tasks, taskConsistent t) :
    ∀ t ∈ (cli.complete_task tasks i now).2, taskConsistent t := by
  induction tasks with
  | nil => intro t ht; simp [cli.complete_task] at ht
  | cons u rest ih =>
    have hu := h u (List.mem_cons_self u rest)
    have hrest : ∀ t ∈ rest, taskConsistent t := fun t ht => h t (List.mem_cons_of_mem u ht)
    intro t ht
    by_cases hcond : u.id = i ∧ u.completed = false
    · simp only [cli.complete_task, if_pos hcond] at ht
      rcases List.mem_cons.mp ht with ht | ht
      · subst ht; rfl
      · exact hrest t ht
    · simp only [cli.complete_task, if_neg hcond] at ht
      rcases List.mem_cons.mp ht with ht | ht
      · subst ht; exact hu
      · exact ih hrest t ht

/-- Toggle preserves per-task consistency: completed_at becomes a stamp
exactly when completed becomes true. -/
theorem consistent_toggle_task (tasks : List Task) (i : Int) (now : String)
    (h : ∀ t ∈ tasks, taskConsistent t) :
    ∀ t ∈ (gui.toggle_task tasks i now).2, taskConsistent t := by
  induction tasks with
  | nil => intro t ht; simp [gui.toggle_task] at ht
  | cons u rest ih =>
    have hu := h u (List.mem_cons_self u rest)
    have hrest : ∀ t ∈ rest, taskConsistent t := fun t ht => h t (List.mem_cons_of_mem u ht)
    intro t ht
    by_cases hid : u.id = i
    · simp only [gui.toggle_task, if_pos hid] at ht
      rcases List.mem_cons.mp ht with ht | ht
      · subst ht
        unfold taskConsistent
        cases hc : u.completed <;> simp [hc]
      · exact hrest t ht
    · simp only [gui.toggle_task, if_neg hid] at ht
      rcases List.mem_cons.mp ht with ht | ht
      · subst ht; exact hu
      · exact ih hrest t ht

/-- Every task surviving a delete was already in the collection. -/
theorem delete_task_mem (tasks : List Task) (i : Int) :
    ∀ t ∈ (cli.delete_task tasks i).2, t ∈ tasks := by
  induction tasks with
  | nil => intro t ht; simp [cli.delete_task] at ht
  | cons u rest ih =>
    intro t ht
    by_cases hid : u.id = i
    · simp only [cli.delete_task, if_pos hid] at ht
      exact List.mem_cons_of_mem u ht
    · simp only [cli.delete_task, if_neg hid] at ht
      rcases List.mem_cons.mp ht with ht | ht
      · exact ht ▸ List.mem_cons_self u rest
      · exact List.mem_cons_of_mem u (ih t ht)

/-- Every store operation preserves the consistency invariant, on the
in-memory collection and on the persisted snapshot alike. -/
theorem storeConsistent_applyOp (s : Store) (op : Op)
    (h : storeConsistent s) : storeConsistent (s.applyOp op) := by
  obtain ⟨hmem, hfile⟩ := h
  cases op with
  | add title p now =>
    have hall := consistent_add_task s.tasks title p now hmem
    exact ⟨hall, fun f hf => by
      simp only [Store.applyOp, Store.add] at hf
      cases hf
      exact hall⟩
  | complete i now =>
    have hall := consistent_complete_task s.tasks i now hmem
    refine ⟨hall, fun f hf => ?_⟩
    simp only [Store.applyOp, Store.complete] at hf
    by_cases hb : (cli.complete_task s.tasks i now).1 = true
    · rw [if_pos hb] at hf
      cases hf
      exact hall
    · rw [if_neg hb] at hf
      exact hfile f hf
  | toggle i now =>
    have hall := consistent_toggle_task s.tasks i now hmem
    refine ⟨hall, fun f hf => ?_⟩
    simp only [Store.applyOp, Store.toggle] at hf
    by_cases hb : (gui.toggle_task s.tasks i now).1 = true
    · rw [if_pos hb] at hf
      cases hf
      exact hall
    · rw [if_neg hb] at hf
      exact hfile f hf
  | delete i =>
    have hall : ∀ t ∈ (cli.delete_task s.tasks i).2, taskConsistent t :=
      fun t ht => hmem t (delete_task_mem s.tasks i t ht)
    refine ⟨hall, fun f hf => ?_⟩
    simp only [Store.applyOp, Store.delete] at hf
    by_cases hb : (cli.delete_task s.tasks i).1 = true
    · rw [if_pos hb] at hf
      cases hf
      exact hall
    · rw [if_neg hb] at hf
      exact hfile f hf

/-- Folding a sequence of operations preserves the invariant. -/
theorem storeConsistent_foldl (ops : List Op) (s : Store)
    (h : storeConsistent s) : storeConsistent (ops.foldl Store.applyOp s) := by
  induction ops generalizing s with
  | nil => exact h
  | cons op rest ih => exact ih _ (storeConsistent_applyOp s op h)

/-- Every state reachable from the empty store is consistent. -/
theorem storeConsistent_runOps (ops : List Op) : storeConsistent (runOps ops) := by
  refine storeConsistent_foldl ops Store.empty ⟨?_, ?_⟩
  · intro t ht; simp [Store.empty] at ht
  · intro f hf; simp [Store.empty] at hf

/-! Claim theorems. -/

/-- C1, counterexample: the claim says every parse failure, including a
structurally invalid task record, leaves the store empty with no
exception escaping Initialize.  On the file containing the valid JSON
document consisting of one record with no fields, both variants raise an
uncaught KeyError for the missing id field, because load_tasks only
catches json.JSONDecodeError (plus FileNotFoundError in the interactive
variant). -/
theorem load_invalid_record_raises :
    cli.load_tasks (.parsed (.jarr [.jobj []])) = .error (.keyError "id") ∧
    gui.load_tasks (.parsed (.jarr [.jobj []])) = .error (.keyError "id") :=
  ⟨rfl, rfl⟩

/-- C1, amended: an absent file or malformed JSON makes the store start
with an empty collection and no exception reaches the caller, in both
variants; but a structurally invalid task record, such as one with an
unknown priority tag, raises an uncaught exception out of Initialize. -/
theorem load_fallback_scope :
    (cli.load_tasks .absent = .ok [] ∧ cli.load_tasks .malformed = .ok [] ∧
     gui.load_tasks .absent = .ok [] ∧ gui.load_tasks .malformed = .ok []) ∧
    cli.load_tasks (.parsed (.jarr [.jobj
        [("id", .jint 1), ("title", .jstr "x"), ("priority", .jstr "urgent"),
         ("completed", .jbool false), ("created_at", .jstr "t"),
         ("completed_at", .jnull)]]))
      = .error .valueError :=
  ⟨⟨rfl, rfl, rfl, rfl⟩, rfl⟩

/-- C2: Add assigns the id count-of-tasks-plus-one, hence a run of Add
calls from the empty store returns ids 1, 2, 3, ... in call order,
whatever the titles and priorities. -/
theorem add_assigns_count_plus_one :
    (∀ (s : Store) (title : String) (p : Priority) (now : String),
        ((s.add title p now).1).id = (s.tasks.length : Int) + 1) ∧
    (∀ args : List (String × Priority × String),
        (addSeqTasks args Store.empty).map Task.id
          = (List.range args.length).map (fun k : Nat => (k : Int) + 1)) := by
  constructor
  · intro s title p now
    rfl
  · intro args
    rw [addSeqTasks_ids]
    apply List.map_congr_left
    intro k _
    simp [Store.empty]
    ring

/-- C3, counterexample: after add, add, delete 1, add, the store holds
two tasks that both carry id 2, so Delete(2) returns true twice in a
row, refuting the claim on a reachable state. -/
theorem delete_twice_true_on_duplicate_ids :
    (Store.delete (runOps [Op.add "a" Priority.medium "t1",
        Op.add "b" Priority.medium "t2", Op.delete 1,
        Op.add "c" Priority.medium "t3"]) 2).1 = true ∧
    (Store.delete (Store.delete (runOps [Op.add "a" Priority.medium "t1",
        Op.add "b" Priority.medium "t2", Op.delete 1,
        Op.add "c" Priority.medium "t3"]) 2).2 2).1 = true := by
  constructor <;> decide

/-- C3, amended: when at most one task in the store carries the given
id, a Delete(id) that returns true leaves a state where an immediately
following Delete(id) returns false. -/
theorem delete_twice_false_when_id_unique (s : Store) (i : Int)
    (huniq : s.tasks.countP (fun t => t.id == i) ≤ 1)
    (hdel : (s.delete i).1 = true) :
    ((s.delete i).2.delete i).1 = false := by
  have hdel2 : (cli.delete_task s.tasks i).1 = true := hdel
  obtain ⟨l, t, r0, heq, hl, hti, hres⟩ := delete_task_found_decomp s.tasks i hdel2
  have hmatch : (t.id == i) = true := beq_iff_eq.mpr hti
  have hcount : s.tasks.countP (fun u => u.id == i)
      = l.countP (fun u => u.id == i) + r0.countP (fun u => u.id == i) + 1 := by
    rw [heq]
    simp [List.countP_append, List.countP_cons, hmatch]
    omega
  have hl0 : l.countP (fun u => u.id == i) = 0 := by omega
  have hr0 : r0.countP (fun u => u.id == i) = 0 := by omega
  have hnone : ∀ u ∈ l ++ r0, u.id ≠ i := by
    intro u hu
    rcases List.mem_append.mp hu with hu | hu
    · have := List.countP_eq_zero.mp hl0 u hu
      simpa using this
    · have := List.countP_eq_zero.mp hr0 u hu
      simpa using this
  have hfalse := delete_task_not_found (l ++ r0) i hnone
  show (cli.delete_task (cli.delete_task s.tasks i).2 i).1 = false
  rw [hres, hfalse]

/-- C3 witness: on a one-task store the amended implication fires. -/
theorem delete_twice_false_when_id_unique_witness :
    (runOps [Op.add "a" Priority.medium "t1"]).tasks.countP (fun t => t.id == 1) ≤ 1 ∧
    (Store.delete (runOps [Op.add "a" Priority.medium "t1"]) 1).1 = true ∧
    (Store.delete (Store.delete (runOps [Op.add "a" Priority.medium "t1"]) 1).2 1).1 = false :=
  ⟨by decide, by decide,
    delete_twice_false_when_id_unique (runOps [Op.add "a" Priority.medium "t1"]) 1
      (by decide) (by decide)⟩

/-- C4: in every state reached from the empty store by Add, Complete,
Toggle and Delete, every task of the last persisted snapshot has a
non-null completed_at exactly when its completed flag is true. -/
theorem persisted_completed_at_iff_completed (ops : List Op) (f : List Task)
    (hf : (runOps ops).file = some f) :
    ∀ t ∈ f, t.completed_at.isSome = t.completed :=
  fun t ht => (storeConsistent_runOps ops).2 f hf t ht

/-- C4 witness: after add then complete, the snapshot holds the
completed task with its stamp. -/
theorem persisted_completed_at_iff_completed_witness :
    (runOps [Op.add "a" Priority.medium "t0", Op.complete 1 "t1"]).file
      = some [Task.mk 1 "a" Priority.medium true "t0" (some "t1")] ∧
    (Task.mk 1 "a" Priority.medium true "t0" (some "t1")).completed_at.isSome
      = (Task.mk 1 "a" Priority.medium true "t0" (some "t1")).completed :=
  ⟨by decide,
    persisted_completed_at_iff_completed
      [Op.add "a" Priority.medium "t0", Op.complete 1 "t1"]
      [Task.mk 1 "a" Priority.medium true "t0" (some "t1")] (by decide)
      (Task.mk 1 "a" Priority.medium true "t0" (some "t1")) (by decide)⟩

/-- C5: Complete on an id whose every bearer is already completed
returns false and leaves the store, including the persisted file,
exactly as it was: no completed_at changes and no write happens. -/
theorem complete_already_completed_noop (s : Store) (i : Int) (now : String)
    (_hex : ∃ t ∈ s.tasks, t.id = i)
    (hall : ∀ t ∈ s.tasks, t.id = i → t.completed = true) :
    s.complete i now = (false, s) := by
  have h := complete_task_no_incomplete_match s.tasks i now hall
  simp only [Store.complete, h]
  rfl

/-- C5 witness: completing the lone completed task a second time changes
nothing. -/
theorem complete_already_completed_noop_witness :
    (∃ t ∈ (runOps [Op.add "a" Priority.medium "t0", Op.complete 1 "t1"]).tasks,
        t.id = 1) ∧
    (∀ t ∈ (runOps [Op.add "a" Priority.medium "t0", Op.complete 1 "t1"]).tasks,
        t.id = 1 → t.completed = true) ∧
    Store.complete (runOps [Op.add "a" Priority.medium "t0", Op.complete 1 "t1"]) 1 "t2"
      = (false, runOps [Op.add "a" Priority.medium "t0", Op.complete 1 "t1"]) :=
  ⟨by decide, by decide,
    complete_already_completed_noop
      (runOps [Op.add "a" Priority.medium "t0", Op.complete 1 "t1"]) 1 "t2"
      (by decide) (by decide)⟩

/-- C6: when the first task carrying the requested id is incomplete with
a null stamp, toggling that id twice reports true both times and
restores the collection exactly, so the task is back to completed=false
and completed_at=null. -/
theorem toggle_twice_restores (s : Store) (i : Int) (now1 now2 : String) (t : Task)
    (hfind : s.tasks.find? (fun u => u.id == i) = some t)
    (hc : t.completed = false) (ha : t.completed_at = none) :
    (s.toggle i now1).1 = true ∧
    ((s.toggle i now1).2.toggle i now2).1 = true ∧
    ((s.toggle i now1).2.toggle i now2).2.tasks = s.tasks := by
  obtain ⟨h1, h2⟩ := toggle_task_twice s.tasks i now1 now2 t hfind hc ha
  refine ⟨h1, ?_, ?_⟩
  · show (gui.toggle_task (gui.toggle_task s.tasks i now1).2 i now2).1 = true
    rw [h2]
  · show (gui.toggle_task (gui.toggle_task s.tasks i now1).2 i now2).2 = s.tasks
    rw [h2]

/-- C6 witness: double toggle on the single fresh task of a one-add
store. -/
theorem toggle_twice_restores_witness :
    (runOps [Op.add "a" Priority.medium "t0"]).tasks.find? (fun u => u.id == 1)
      = some (Task.mk 1 "a" Priority.medium false "t0" none) ∧
    (Task.mk 1 "a" Priority.medium false "t0" none).completed = false ∧
    (Task.mk 1 "a" Priority.medium false "t0" none).completed_at = none ∧
    ((Store.toggle (runOps [Op.add "a" Priority.medium "t0"]) 1 "t1").1 = true ∧
     (Store.toggle (Store.toggle (runOps [Op.add "a" Priority.medium "t0"]) 1 "t1").2
        1 "t2").1 = true ∧
     (Store.toggle (Store.toggle (runOps [Op.add "a" Priority.medium "t0"]) 1 "t1").2
        1 "t2").2.tasks = (runOps [Op.add "a" Priority.medium "t0"]).tasks) :=
  ⟨by decide, by decide, by decide,
    toggle_twice_restores (runOps [Op.add "a" Priority.medium "t0"]) 1 "t1" "t2"
      (Task.mk 1 "a" Priority.medium false "t0" none)
      (by decide) (by decide) (by decide)⟩

/-- C7: serializing any collection with save and re-initializing from
that document yields the same ordered sequence of task records, field by
field, in both variants. -/
theorem save_load_round_trip (ts : List Task) :
    cli.load_tasks (.parsed (cli.save_tasks ts)) = .ok (ts.map Task.toRaw) ∧
    gui.load_tasks (.parsed (gui.save_tasks ts)) = .ok (ts.map Task.toRaw) :=
  ⟨tasksFromData_save ts, tasksFromData_save ts⟩

/-- C8: List(true) returns the whole collection, List(false) returns
the incomplete tasks in insertion order, and on three tasks with the
second completed List(false) returns exactly the first and third. -/
theorem list_tasks_filter_spec :
    (∀ ts : List Task, cli.list_tasks ts true = ts) ∧
    (∀ ts : List Task, cli.list_tasks ts false = ts.filter (fun t => !t.completed)) ∧
    (∀ t1 t2 t3 : Task, t1.completed = false → t2.completed = true →
        t3.completed = false → cli.list_tasks [t1, t2, t3] false = [t1, t3]) := by
  refine ⟨fun ts => rfl, fun ts => rfl, ?_⟩
  intro t1 t2 t3 h1 h2 h3
  simp [cli.list_tasks, List.filter, h1, h2, h3]

/-- C8 witness: a concrete three-task store with the second task
completed. -/
theorem list_tasks_filter_spec_witness :
    (Task.mk 1 "a" Priority.medium false "t1" none).completed = false ∧
    (Task.mk 2 "b" Priority.medium true "t2" (some "t3")).completed = true ∧
    (Task.mk 3 "c" Priority.high false "t4" none).completed = false ∧
    cli.list_tasks [Task.mk 1 "a" Priority.medium false "t1" none,
        Task.mk 2 "b" Priority.medium true "t2" (some "t3"),
        Task.mk 3 "c" Priority.high false "t4" none] false
      = [Task.mk 1 "a" Priority.medium false "t1" none,
         Task.mk 3 "c" Priority.high false "t4" none] :=
  ⟨rfl, rfl, rfl,
    list_tasks_filter_spec.2.2
      (Task.mk 1 "a" Priority.medium false "t1" none)
      (Task.mk 2 "b" Priority.medium true "t2" (some "t3"))
      (Task.mk 3 "c" Priority.high false "t4" none) rfl rfl rfl⟩

/-- C9: a Delete that returns true splits the collection into an
unmatched prefix, the first matching task, and the remainder; the result
is exactly prefix plus remainder, every survivor keeping its fields and
relative order. -/
theorem delete_removes_first_match_only (s : Store) (i : Int)
    (h : (s.delete i).1 = true) :
    ∃ l t r, s.tasks = l ++ t :: r ∧ (∀ u ∈ l, u.id ≠ i) ∧ t.id = i ∧
      (s.delete i).2.tasks = l ++ r := by
  have h2 : (cli.delete_task s.tasks i).1 = true := h
  obtain ⟨l, t, r, heq, hl, ht, hres⟩ := delete_task_found_decomp s.tasks i h2
  exact ⟨l, t, r, heq, hl, ht, hres⟩

/-- C9 witness: deleting id 1 from a two-task store removes exactly the
first task. -/
theorem delete_removes_first_match_only_witness :
    (Store.delete (runOps [Op.add "a" Priority.medium "t0",
        Op.add "b" Priority.high "t1"]) 1).1 = true ∧
    (∃ l t r, (runOps [Op.add "a" Priority.medium "t0",
          Op.add "b" Priority.high "t1"]).tasks = l ++ t :: r ∧
        (∀ u ∈ l, u.id ≠ 1) ∧ t.id = 1 ∧
        (Store.delete (runOps [Op.add "a" Priority.medium "t0",
            Op.add "b" Priority.high "t1"]) 1).2.tasks = l ++ r) :=
  ⟨by decide,
    delete_removes_first_match_only
      (runOps [Op.add "a" Priority.medium "t0", Op.add "b" Priority.high "t1"]) 1
      (by decide)⟩

/-- C10: the shared store operations of the two variants agree: add_task,
delete_task and save_tasks compute the same returned value, the same
resulting collection and the same serialized document. -/
theorem cli_gui_equivalent :
    (∀ (tasks : List Task) (title : String) (p : Priority) (now : String),
        cli.add_task tasks title p now = gui.add_task tasks title p now) ∧
    (∀ (tasks : List Task) (i : Int),
        cli.delete_task tasks i = gui.delete_task tasks i) ∧
    (∀ tasks : List Task, cli.save_tasks tasks = gui.save_tasks tasks) := by
  refine ⟨fun _ _ _ _ => rfl, fun tasks i => ?_, fun _ => rfl⟩
  induction tasks with
  | nil => rfl
  | cons t rest ih =>
    by_cases hid : t.id = i
    · simp [cli.delete_task, gui.delete_task, hid]
    · simp [cli.delete_task, gui.delete_task, hid, ih]

end TaskMaster
